import Mathlib

/-!
Verification of the upload-api storage core against its specification.

This file gives a shallow embedding of the repository's storage components:

* the Allocation Ledger (src/upload-api/stores/allocations.js) over a model
  of the DynamoDB keyed-store collaborator,
* the Agent Message Index (src/upload-api/stores/agent/store.js) over a model
  of the S3 object-store collaborator,
* the redirect handler (src/unnamed/part_000, the roundabout lambda),
* the billing space-snapshot codec (src/billing/data/space-snapshot.js).

External collaborators (DynamoDB, S3, multiformats, ucanto, the JS runtime)
are modelled at their interface boundary as the spec directs; each such model
carries a doc comment naming what it stands for.
-/

set_option maxRecDepth 10000

namespace UploadApi

/-! ## Verified decimal digit codec

Used to model, at the interface boundary, the external serializations the
code relies on: JS BigInt decimal strings, the base58btc multihash encoding
(as an injective byte-list encoding), and millisecond-precision timestamps.
-/

/-- Character for a single decimal digit. -/
def dchar (d : Nat) : Char := Char.ofNat (48 + d)

/-- Numeric value of a decimal digit character. -/
def dval (c : Char) : Nat := c.toNat - 48

/-- Is this character a decimal digit? -/
def isDigitCh (c : Char) : Bool := 48 ≤ c.toNat && c.toNat ≤ 57

theorem dval_dchar {d : Nat} (h : d < 10) : dval (dchar d) = d := by
  interval_cases d <;> rfl

theorem isDigitCh_dchar {d : Nat} (h : d < 10) : isDigitCh (dchar d) = true := by
  interval_cases d <;> rfl

/-- Little-endian decimal digits, with explicit fuel so that the definition
is structurally recursive and evaluates inside the kernel. -/
def digitsFuel : Nat → Nat → List Nat
  | 0, _ => []
  | fuel + 1, n => if n = 0 then [] else n % 10 :: digitsFuel fuel (n / 10)

/-- Little-endian decimal digits of a natural number (empty for zero). -/
def digitsLE (n : Nat) : List Nat := digitsFuel n n

/-- Value of a little-endian digit list. -/
def valueLE : List Nat → Nat
  | [] => 0
  | d :: ds => d + 10 * valueLE ds

/-- Value of a big-endian digit list. -/
def valueBE : List Nat → Nat
  | [] => 0
  | d :: ds => valueBE ds + d * 10 ^ ds.length

theorem valueLE_digitsFuel (fuel : Nat) :
    ∀ n, n ≤ fuel → valueLE (digitsFuel fuel n) = n := by
  induction fuel with
  | zero => intro n hn; interval_cases n; rfl
  | succ f ih =>
    intro n hn
    by_cases h0 : n = 0
    · subst h0; simp [digitsFuel, valueLE]
    · rw [digitsFuel, if_neg h0, valueLE, ih (n / 10) (by omega)]
      omega

theorem valueLE_digitsLE (n : Nat) : valueLE (digitsLE n) = n :=
  valueLE_digitsFuel n n (le_refl n)

theorem digitsFuel_lt_ten (fuel : Nat) :
    ∀ n, ∀ d ∈ digitsFuel fuel n, d < 10 := by
  induction fuel with
  | zero => intro n d h; simp [digitsFuel] at h
  | succ f ih =>
    intro n d h
    rw [digitsFuel] at h
    by_cases h0 : n = 0
    · rw [if_pos h0] at h; simp at h
    · rw [if_neg h0] at h
      rcases List.mem_cons.1 h with h | h
      · omega
      · exact ih (n / 10) d h

theorem digitsLE_lt_ten (n : Nat) : ∀ d ∈ digitsLE n, d < 10 :=
  digitsFuel_lt_ten n n

theorem valueBE_append (l : List Nat) (d : Nat) :
    valueBE (l ++ [d]) = valueBE l * 10 + d := by
  induction l with
  | nil => simp [valueBE]
  | cons x xs ih =>
    rw [List.cons_append]
    show valueBE (xs ++ [d]) + x * 10 ^ (xs ++ [d]).length = _
    rw [ih, List.length_append]
    simp only [valueBE, List.length_cons, List.length_nil]
    ring

theorem valueBE_reverse (l : List Nat) : valueBE l.reverse = valueLE l := by
  induction l with
  | nil => rfl
  | cons d ds ih =>
    rw [List.reverse_cons, valueBE_append, ih, valueLE]
    ring

/-- Big-endian decimal digit characters of a natural number, as JS
number/bigint `toString` produces them. -/
def natChars (n : Nat) : List Char :=
  if digitsLE n = [] then ['0'] else ((digitsLE n).reverse).map dchar

/-- Parse a list of decimal digit characters (big-endian); `none` when the
list is empty or contains a non-digit, as JS `BigInt(string)` rejects such
input (modulo the empty-string corner which the code never produces). -/
def parseNatChars (l : List Char) : Option Nat :=
  if l = [] then none
  else if l.all isDigitCh then some (valueBE (l.map dval))
  else none

theorem map_dval_dchar (l : List Nat) (h : ∀ d ∈ l, d < 10) :
    (l.map dchar).map dval = l := by
  induction l with
  | nil => rfl
  | cons d ds ih =>
    simp only [List.map_cons, List.cons.injEq]
    exact ⟨dval_dchar (h d (by simp)), ih (fun x hx => h x (by simp [hx]))⟩

theorem all_isDigitCh_map (l : List Nat) (h : ∀ d ∈ l, d < 10) :
    (l.map dchar).all isDigitCh = true := by
  induction l with
  | nil => rfl
  | cons d ds ih =>
    simp only [List.map_cons, List.all_cons, Bool.and_eq_true]
    exact ⟨isDigitCh_dchar (h d (by simp)), ih (fun x hx => h x (by simp [hx]))⟩

theorem parseNatChars_natChars (n : Nat) : parseNatChars (natChars n) = some n := by
  unfold natChars
  by_cases hd : digitsLE n = []
  · rw [if_pos hd]
    have hv := valueLE_digitsLE n
    rw [hd] at hv
    have h0 : n = 0 := by rw [← hv]; rfl
    subst h0
    rfl
  · rw [if_neg hd]
    have hlt : ∀ x ∈ (digitsLE n).reverse, x < 10 := fun x hx =>
      digitsLE_lt_ten n x ((List.mem_reverse).1 hx)
    have hne : ((digitsLE n).reverse).map dchar ≠ [] := by
      simp [hd]
    unfold parseNatChars
    rw [if_neg hne, if_pos (all_isDigitCh_map _ hlt), map_dval_dchar _ hlt,
      valueBE_reverse, valueLE_digitsLE]

/-- Decimal string of a natural number (JS `toString`). -/
def natToDec (n : Nat) : String := ⟨natChars n⟩

/-- Parse a decimal string into a natural number. -/
def decToNat (s : String) : Option Nat := parseNatChars s.data

theorem decToNat_natToDec (n : Nat) : decToNat (natToDec n) = some n :=
  parseNatChars_natChars n

/-- Decimal string of an integer (JS `toString`, with a leading minus sign
for negative values). -/
def intToDec (i : Int) : String :=
  if i < 0 then ⟨'-' :: natChars i.natAbs⟩ else ⟨natChars i.natAbs⟩

/-- Parse a decimal string into an integer (JS `BigInt(string)` behaviour on
the strings this system produces). -/
def decToInt (s : String) : Option Int :=
  match s.data with
  | [] => none
  | c :: rest =>
    if c = '-' then (parseNatChars rest).map (fun n : Nat => -(n : Int))
    else (parseNatChars (c :: rest)).map (fun n : Nat => (n : Int))

theorem head_natChars_isDigit (n : Nat) :
    ∀ c ∈ natChars n, isDigitCh c = true := by
  intro c hc
  unfold natChars at hc
  by_cases hd : digitsLE n = []
  · rw [if_pos hd] at hc
    simp only [List.mem_singleton] at hc
    subst hc; rfl
  · rw [if_neg hd] at hc
    rcases List.mem_map.1 hc with ⟨x, hx, hcx⟩
    subst hcx
    exact isDigitCh_dchar (digitsLE_lt_ten n x ((List.mem_reverse).1 hx))

theorem decToInt_intToDec (i : Int) : decToInt (intToDec i) = some i := by
  unfold intToDec
  by_cases h : i < 0
  · rw [if_pos h]
    have hstep : decToInt ⟨'-' :: natChars i.natAbs⟩ =
        (parseNatChars (natChars i.natAbs)).map (fun n : Nat => -(n : Int)) := by
      rfl
    rw [hstep, parseNatChars_natChars]
    simp only [Option.map_some']
    congr 1
    omega
  · rw [if_neg h]
    have hne : natChars i.natAbs ≠ [] := by
      unfold natChars
      by_cases hd : digitsLE i.natAbs = []
      · rw [if_pos hd]; simp
      · rw [if_neg hd]; simp [hd]
    rcases hm : natChars i.natAbs with _ | ⟨c, rest⟩
    · exact absurd hm hne
    · have hdig : isDigitCh c = true :=
        head_natChars_isDigit i.natAbs c (by rw [hm]; simp)
      have hcne : ¬ (c = '-') := by
        intro hc; subst hc; simp [isDigitCh] at hdig
      have hstep : decToInt ⟨c :: rest⟩ =
          if c = '-' then (parseNatChars rest).map (fun n : Nat => -(n : Int))
          else (parseNatChars (c :: rest)).map (fun n : Nat => (n : Int)) := by
        rfl
      rw [hstep, if_neg hcne, ← hm, parseNatChars_natChars]
      simp only [Option.map_some']
      congr 1
      omega

/-! ## Lexicographic order on character lists

Model of the byte order DynamoDB uses for string sort keys and S3 uses for
listing; on the ASCII alphabets produced here it agrees with UTF-8 order.
-/

/-- Lexicographic less-or-equal on character lists. -/
def lexLe : List Char → List Char → Bool
  | [], _ => true
  | _ :: _, [] => false
  | a :: as, b :: bs =>
    if a.toNat < b.toNat then true
    else if b.toNat < a.toNat then false
    else lexLe as bs

theorem lexLe_refl (l : List Char) : lexLe l l = true := by
  induction l with
  | nil => rfl
  | cons a as ih => simp [lexLe, ih]

theorem lexLe_trans :
    ∀ a b c : List Char, lexLe a b = true → lexLe b c = true → lexLe a c = true := by
  intro a
  induction a with
  | nil => intro b c _ _; rfl
  | cons x xs ih =>
    intro b c hab hbc
    match b, c with
    | [], _ => simp [lexLe] at hab
    | _ :: _, [] => simp [lexLe] at hbc
    | y :: ys, z :: zs =>
      simp only [lexLe] at hab hbc ⊢
      by_cases hxy : x.toNat < y.toNat
      · by_cases hyz : y.toNat < z.toNat
        · rw [if_pos (by omega)]
        · rw [if_pos hxy] at hab
          by_cases hzy : z.toNat < y.toNat
          · rw [if_neg hyz, if_pos hzy] at hbc; exact absurd hbc (by simp)
          · rw [if_pos (by omega)]
      · by_cases hyx : y.toNat < x.toNat
        · rw [if_neg hxy, if_pos hyx] at hab; exact absurd hab (by simp)
        · have hxe : x.toNat = y.toNat := by omega
          rw [if_neg hxy, if_neg hyx] at hab
          by_cases hyz : y.toNat < z.toNat
          · rw [if_pos (by omega)]
          · by_cases hzy : z.toNat < y.toNat
            · rw [if_neg hyz, if_pos hzy] at hbc; exact absurd hbc (by simp)
            · rw [if_neg hyz, if_neg hzy] at hbc
              rw [if_neg (by omega), if_neg (by omega)]
              exact ih ys zs hab hbc

theorem lexLe_total (a b : List Char) : lexLe a b = true ∨ lexLe b a = true := by
  induction a generalizing b with
  | nil => left; rfl
  | cons x xs ih =>
    match b with
    | [] => right; rfl
    | y :: ys =>
      simp only [lexLe]
      by_cases hxy : x.toNat < y.toNat
      · left; rw [if_pos hxy]
      · by_cases hyx : y.toNat < x.toNat
        · right; rw [if_pos hyx]
        · rcases ih ys with h | h
          · left; rw [if_neg hxy, if_neg hyx]; exact h
          · right; rw [if_neg hyx, if_neg hxy]; exact h

/-- String comparison via the character-list order. -/
def strLe (a b : String) : Bool := lexLe a.data b.data

/-! ## Insertion sort used to model range-query ordering -/

/-- Insert into a list sorted by `le`. -/
def insertSorted (le : α → α → Bool) (a : α) : List α → List α
  | [] => [a]
  | b :: bs => if le a b then a :: b :: bs else b :: insertSorted le a bs

/-- Sort a list by `le` (models the backing store returning a partition's
items ordered by the sort key). -/
def sortBy (le : α → α → Bool) : List α → List α
  | [] => []
  | a :: as => insertSorted le a (sortBy le as)

theorem mem_insertSorted (le : α → α → Bool) (a : α) (l : List α) (y : α)
    (hy : y ∈ insertSorted le a l) : y = a ∨ y ∈ l := by
  induction l with
  | nil =>
    simp only [insertSorted, List.mem_singleton] at hy
    left; exact hy
  | cons b bs ih =>
    simp only [insertSorted] at hy
    by_cases hab : le a b = true
    · rw [if_pos hab] at hy
      rcases List.mem_cons.1 hy with h | h
      · left; exact h
      · right; exact h
    · rw [if_neg hab] at hy
      rcases List.mem_cons.1 hy with h | h
      · right; rw [h]; simp
      · rcases ih h with h' | h'
        · left; exact h'
        · right; simp [h']

theorem pairwise_insertSorted (le : α → α → Bool)
    (htrans : ∀ a b c, le a b = true → le b c = true → le a c = true)
    (htotal : ∀ a b, le a b = true ∨ le b a = true)
    (a : α) (l : List α) (hl : l.Pairwise (fun x y => le x y = true)) :
    (insertSorted le a l).Pairwise (fun x y => le x y = true) := by
  induction l with
  | nil => simp [insertSorted]
  | cons b bs ih =>
    simp only [insertSorted]
    by_cases hab : le a b = true
    · rw [if_pos hab]
      refine List.Pairwise.cons ?_ hl
      intro y hy
      rcases List.mem_cons.1 hy with h | h
      · rw [h]; exact hab
      · exact htrans a b y hab ((List.pairwise_cons.1 hl).1 y h)
    · rw [if_neg hab]
      have hba : le b a = true := (htotal a b).resolve_left hab
      rcases List.pairwise_cons.1 hl with ⟨hfst, hrest⟩
      refine List.Pairwise.cons ?_ (ih hrest)
      intro y hy
      rcases mem_insertSorted le a bs y hy with h | h
      · rw [h]; exact hba
      · exact hfst y h

theorem pairwise_sortBy (le : α → α → Bool)
    (htrans : ∀ a b c, le a b = true → le b c = true → le a c = true)
    (htotal : ∀ a b, le a b = true ∨ le b a = true)
    (l : List α) : (sortBy le l).Pairwise (fun x y => le x y = true) := by
  induction l with
  | nil => exact List.Pairwise.nil
  | cons a as ih => exact pairwise_insertSorted le htrans htotal a (sortBy le as) ih

end UploadApi

namespace UploadApi

/-! ## Model of the base58btc multihash codec

The repository calls `base58btc.encode`/`base58btc.decode` from the external
multiformats library. Modelled from the spec at the collaborator interface:
an injective encoding of a byte sequence into a multibase string (leading
multibase character, then a fixed-width rendering of each byte), with decode
as its inverse; decode rejects strings that are not in the image. String
order on the encodings is the order DynamoDB applies to the sort key.
-/

/-- Fixed-width rendering of one byte. -/
def encByte (b : Fin 256) : List Char :=
  [dchar (b.val / 100), dchar (b.val / 10 % 10), dchar (b.val % 10)]

/-- Encoding of a byte sequence (a multihash digest) into a string. -/
def b58encode (digest : List (Fin 256)) : String :=
  ⟨'z' :: (digest.map encByte).flatten⟩

/-- Parse one fixed-width byte. -/
def parseByte (a b c : Char) : Option (Fin 256) :=
  if isDigitCh a && isDigitCh b && isDigitCh c then
    let v := 100 * dval a + 10 * dval b + dval c
    if h : v < 256 then some ⟨v, h⟩ else none
  else none

/-- Parse a sequence of fixed-width bytes. -/
def parseBytes : List Char → Option (List (Fin 256))
  | [] => some []
  | a :: b :: c :: rest =>
    match parseByte a b c, parseBytes rest with
    | some x, some xs => some (x :: xs)
    | _, _ => none
  | _ => none

/-- Decoding of a multibase string back into the byte sequence. -/
def b58decode (s : String) : Option (List (Fin 256)) :=
  match s.data with
  | 'z' :: rest => parseBytes rest
  | _ => none

theorem parseByte_encByte (b : Fin 256) :
    parseByte (dchar (b.val / 100)) (dchar (b.val / 10 % 10)) (dchar (b.val % 10)) =
      some b := by
  have h1 : b.val / 100 < 10 := by omega
  have h2 : b.val / 10 % 10 < 10 := by omega
  have h3 : b.val % 10 < 10 := by omega
  unfold parseByte
  rw [isDigitCh_dchar h1, isDigitCh_dchar h2, isDigitCh_dchar h3]
  simp only [Bool.and_self, if_true]
  rw [dval_dchar h1, dval_dchar h2, dval_dchar h3]
  have hv : 100 * (b.val / 100) + 10 * (b.val / 10 % 10) + b.val % 10 = b.val := by
    omega
  simp only [hv, Fin.is_lt, dite_true]

theorem parseBytes_flatten (d : List (Fin 256)) :
    parseBytes ((d.map encByte).flatten) = some d := by
  induction d with
  | nil => rfl
  | cons x xs ih =>
    show parseBytes
      (dchar (x.val / 100) :: dchar (x.val / 10 % 10) :: dchar (x.val % 10) ::
        (xs.map encByte).flatten) = some (x :: xs)
    rw [parseBytes, parseByte_encByte x, ih]

theorem b58decode_b58encode (d : List (Fin 256)) :
    b58decode (b58encode d) = some d := by
  have hstep : b58decode ⟨'z' :: (d.map encByte).flatten⟩ =
      parseBytes ((d.map encByte).flatten) := rfl
  rw [b58encode, hstep, parseBytes_flatten]

theorem b58encode_inj (a b : List (Fin 256)) (h : b58encode a = b58encode b) :
    a = b := by
  have := b58decode_b58encode a
  rw [h, b58decode_b58encode b] at this
  exact (Option.some_inj.1 this).symm

/-- Model of a multiformats `Link` (a CID) at the collaborator interface:
`toString` exposes the canonical string and `Link.parse` reconstructs the
link from exactly that string. -/
structure Lnk where
  str : String
deriving DecidableEq

/-- Model of `Link.parse` applied to a canonical link string. -/
def linkParse (s : String) : Lnk := ⟨s⟩

end UploadApi

namespace UploadApi.Allocations

/-! ## Allocation Ledger — src/upload-api/stores/allocations.js

The DynamoDB keyed-store collaborator is modelled per spec section 6:
`getItem`, conditional `putItem`, conditional `deleteItem` with old-value
return, and `query` ordered by the sort key. The allocations table schema
(partition key `space`, sort key the base58btc multihash) is modelled from
the spec: the table props live in upload-api/tables/index.js, which is not
among the sources; spec section 6 fixes this persisted key layout.
-/

/-- A marshalled item of the allocations table. -/
structure Item where
  space : String
  multihash : String
  size : Nat
  cause : String
  insertedAt : String
deriving DecidableEq

/-- The table contents (key uniqueness is an invariant, stated where needed,
not baked into the type). -/
abbrev Table := List Item

/-- Does the item carry the given (space, multihash) primary key? -/
def keyMatch (s m : String) (i : Item) : Bool :=
  i.space == s && i.multihash == m

/-- Model of DynamoDB GetItemCommand: point lookup by full primary key. -/
def getItem (t : Table) (s m : String) : Option Item :=
  t.find? (keyMatch s m)

/-- Table with the first item carrying the key removed. -/
def removeKey : Table → String → String → Table
  | [], _, _ => []
  | i :: rest, s, m => if keyMatch s m i then rest else i :: removeKey rest s m

/-- Outcome of a conditional put. -/
inductive PutOutcome
  | stored (t : Table)
  | condFailed
deriving DecidableEq

/-- Model of PutItemCommand with condition
`attribute_not_exists(space) AND attribute_not_exists(multihash)`: a single
atomic conditional write — in one step it either stores the item (when no
item with that key exists) or fails the condition, with no separate
read-then-write. -/
def condPut (t : Table) (item : Item) : PutOutcome :=
  match getItem t item.space item.multihash with
  | some _ => .condFailed
  | none => .stored (t ++ [item])

/-- Outcome of a conditional delete with `ReturnValues: ALL_OLD`. -/
inductive DelOutcome
  | deleted (old : Item) (t : Table)
  | condFailed
deriving DecidableEq

/-- Model of DeleteItemCommand with condition
`attribute_exists(space) AND attribute_exists(multihash)`: atomically deletes
the item and returns its old attributes, or fails the condition when the key
is absent. -/
def condDelete (t : Table) (s m : String) : DelOutcome :=
  match getItem t s m with
  | some old => .deleted old (removeKey t s m)
  | none => .condFailed

/-- A blob reference: digest bytes plus size. -/
structure Blob where
  digest : List (Fin 256)
  size : Nat
deriving DecidableEq

/-- Input of `insert`. -/
structure BlobAddInput where
  space : String
  blob : Blob
  cause : Lnk
deriving DecidableEq

/-- Record returned by `get`. -/
structure AllocRecord where
  blob : Blob
  cause : Lnk
deriving DecidableEq

/-- Result of `insert`. -/
inductive InsertRes
  | ok (blob : Blob)
  | errConflict
deriving DecidableEq

/-- The item `insert` marshals into the table (allocations.js lines 106-112). -/
def insItem (inp : BlobAddInput) (now : String) : Item :=
  { space := inp.space
    multihash := b58encode inp.blob.digest
    size := inp.blob.size
    cause := inp.cause.str
    insertedAt := now }

/-- `insert` — allocations.js lines 102-129. `now` stands for
`new Date().toISOString()`. The conflict check and the write are one
conditional put against the table. -/
def insert (t : Table) (inp : BlobAddInput) (now : String) : InsertRes × Table :=
  match condPut t (insItem inp now) with
  | .stored t' => (.ok inp.blob, t')
  | .condFailed => (.errConflict, t)

/-- `exists` (named `allocExists` because `exists` is reserved in Lean) —
allocations.js lines 53-67: point read projected to the `space` attribute;
the result is whether an item came back. Any backend error is also reported
as `false` (the catch branch), so the fault-free model returns the same
boolean the code would. -/
def allocExists (t : Table) (space : String) (digest : List (Fin 256)) : Bool :=
  (getItem t space (b58encode digest)).isSome

/-- Result of `get`. -/
inductive GetRes
  | ok (rec : AllocRecord)
  | errNotFound
  | crash (msg : String)
deriving DecidableEq

/-- `get` — allocations.js lines 73-95. On a hit the stored multihash string
is decoded back into digest bytes and the stored cause string is parsed back
into a link; a malformed stored multihash would make the decoder throw,
modelled as `crash`. -/
def get (t : Table) (space : String) (digest : List (Fin 256)) : GetRes :=
  match getItem t space (b58encode digest) with
  | none => .errNotFound
  | some raw =>
    match b58decode raw.multihash with
    | some d => .ok { blob := { digest := d, size := raw.size }, cause := linkParse raw.cause }
    | none => .crash "base58btc decode"

/-- Result of `remove`. -/
inductive RemoveRes
  | ok (size : Nat)
  | errStorageFailed (name : String)
deriving DecidableEq

/-- `remove` — allocations.js lines 135-169. `fault` injects a backend
exception thrown by the DynamoDB send, carrying the error name, before the
table is touched; the code maps a `ConditionalCheckFailedException` name to
an ok zero-size result and any other name to `StorageOperationFailed`.
Without a fault the conditional delete runs: a condition failure (record
already gone) is `{size: 0}`, a hit returns the old record's size (with
`ReturnValues: ALL_OLD` the old attributes are always present on success, so
the `missing return values` throw inside the try is unreachable). -/
def remove (t : Table) (fault : Option String) (space : String)
    (digest : List (Fin 256)) : RemoveRes × Table :=
  match fault with
  | some name =>
    if name = "ConditionalCheckFailedException" then (.ok 0, t)
    else (.errStorageFailed name, t)
  | none =>
    match condDelete t space (b58encode digest) with
    | .deleted old t' => (.ok old.size, t')
    | .condFailed => (.ok 0, t)

/-- Key-uniqueness invariant of a DynamoDB table: no two items share the
(space, multihash) primary key. -/
abbrev UniqueKeys (t : Table) : Prop :=
  t.Pairwise (fun a b => ¬(a.space = b.space ∧ a.multihash = b.multihash))

theorem getItem_append_self (t : Table) (i : Item)
    (h : getItem t i.space i.multihash = none) :
    getItem (t ++ [i]) i.space i.multihash = some i := by
  induction t with
  | nil =>
    simp only [List.nil_append, getItem, List.find?]
    have : keyMatch i.space i.multihash i = true := by
      simp [keyMatch]
    rw [this]
  | cons j rest ih =>
    simp only [getItem, List.find?] at h ⊢
    rcases hj : keyMatch i.space i.multihash j with _ | _
    · rw [hj] at h
      simp only [List.cons_append, List.find?, hj]
      exact ih h
    · rw [hj] at h
      simp at h

theorem getItem_removeKey_none (t : Table) (s m : String) (hu : UniqueKeys t)
    (i : Item) (h : getItem t s m = some i) :
    getItem (removeKey t s m) s m = none := by
  induction t with
  | nil => simp [getItem, List.find?] at h
  | cons j rest ih =>
    rcases List.pairwise_cons.1 hu with ⟨hfst, hrest⟩
    simp only [getItem, List.find?] at h
    rcases hj : keyMatch s m j with _ | _
    · rw [hj] at h
      simp only [removeKey, hj, Bool.false_eq_true, if_false, getItem, List.find?, hj]
      exact ih hrest h
    · rw [hj] at h
      simp only [removeKey, hj, if_true]
      rcases hfind : (getItem rest s m) with _ | b
      · rfl
      · exfalso
        have hb : keyMatch s m b = true := List.find?_some hfind
        have hbmem : b ∈ rest := List.mem_of_find?_eq_some hfind
        have hjk : j.space = s ∧ j.multihash = m := by
          simp only [keyMatch, Bool.and_eq_true, beq_iff_eq] at hj
          exact hj
        have hbk : b.space = s ∧ b.multihash = m := by
          simp only [keyMatch, Bool.and_eq_true, beq_iff_eq] at hb
          exact hb
        exact hfst b hbmem ⟨by rw [hjk.1, hbk.1], by rw [hjk.2, hbk.2]⟩

theorem insItem_space (inp : BlobAddInput) (now : String) :
    (insItem inp now).space = inp.space := rfl

theorem insItem_multihash (inp : BlobAddInput) (now : String) :
    (insItem inp now).multihash = b58encode inp.blob.digest := rfl

theorem insItem_size (inp : BlobAddInput) (now : String) :
    (insItem inp now).size = inp.blob.size := rfl

theorem insItem_cause (inp : BlobAddInput) (now : String) :
    (insItem inp now).cause = inp.cause.str := rfl

/-- Claim C1: after a successful insert for (space, digest), the record
exists, `get` returns it, a second insert with the same key fails with
RecordKeyConflict, and — the conditional-write rendering — the outcome and
the resulting table state are determined in a single conditional-put step by
whether the key is present, with no separate client-side existence check. -/
theorem insert_exactly_once (t : Table) (inp : BlobAddInput) (now : String) :
    (getItem t inp.space (b58encode inp.blob.digest) = none →
      ∃ t', insert t inp now = (.ok inp.blob, t') ∧
        allocExists t' inp.space inp.blob.digest = true ∧
        get t' inp.space inp.blob.digest = .ok { blob := inp.blob, cause := inp.cause } ∧
        (∀ inp' now', inp'.space = inp.space → inp'.blob.digest = inp.blob.digest →
          insert t' inp' now' = (.errConflict, t'))) ∧
    ((getItem t inp.space (b58encode inp.blob.digest)).isSome →
      insert t inp now = (.errConflict, t)) := by
  constructor
  · intro habs
    have hfound : getItem (t ++ [insItem inp now]) inp.space (b58encode inp.blob.digest) =
        some (insItem inp now) := getItem_append_self t (insItem inp now) habs
    refine ⟨t ++ [insItem inp now], ?_, ?_, ?_, ?_⟩
    · simp only [insert, condPut, insItem_space, insItem_multihash, habs]
    · simp only [allocExists, hfound, Option.isSome_some]
    · simp only [get, hfound, insItem_multihash, insItem_size, insItem_cause,
        b58decode_b58encode, linkParse]
    · intro inp' now' hs hd
      simp only [insert, condPut, insItem_space, insItem_multihash, hs, hd, hfound]
  · intro hsome
    rcases hfind : getItem t inp.space (b58encode inp.blob.digest) with _ | i
    · rw [hfind] at hsome; simp at hsome
    · simp only [insert, condPut, insItem_space, insItem_multihash, hfind]

/-- Witness for claim C1 at a concrete space, digest and table. -/
theorem insert_exactly_once_witness :
    ∃ t', insert ([] : Table)
        { space := "did:key:zws", blob := { digest := [3, 7], size := 5 },
          cause := { str := "bafyCause" } } "2024-05-01T00:00:00.000Z" =
        (.ok { digest := [3, 7], size := 5 }, t') ∧
      allocExists t' "did:key:zws" [3, 7] = true ∧
      get t' "did:key:zws" [3, 7] =
        .ok { blob := { digest := [3, 7], size := 5 }, cause := { str := "bafyCause" } } ∧
      (∀ inp' now', inp'.space = "did:key:zws" → inp'.blob.digest = [3, 7] →
        insert t' inp' now' = (.errConflict, t')) :=
  (insert_exactly_once []
    { space := "did:key:zws", blob := { digest := [3, 7], size := 5 },
      cause := { str := "bafyCause" } } "2024-05-01T00:00:00.000Z").1 (by decide)

/-- Claim C2: remove returns an ok zero-size result when the record is
already gone (never inserted, or removed by a prior successful remove), the
removed record's size when it exists, and StorageOperationFailed on any
backend failure other than the conditional-check failure. -/
theorem remove_handles_absence (t : Table) (s : String) (d : List (Fin 256)) :
    (getItem t s (b58encode d) = none → remove t none s d = (.ok 0, t)) ∧
    (∀ i, UniqueKeys t → getItem t s (b58encode d) = some i →
      ∃ t', remove t none s d = (.ok i.size, t') ∧
        remove t' none s d = (.ok 0, t')) ∧
    (∀ name, name ≠ "ConditionalCheckFailedException" →
      remove t (some name) s d = (.errStorageFailed name, t)) := by
  refine ⟨?_, ?_, ?_⟩
  · intro habs
    simp only [remove, condDelete, habs]
  · intro i hu hsome
    refine ⟨removeKey t s (b58encode d), ?_, ?_⟩
    · simp only [remove, condDelete, hsome]
    · have hgone := getItem_removeKey_none t s (b58encode d) hu i hsome
      simp only [remove, condDelete, hgone]
  · intro name hname
    simp only [remove, if_neg hname]

/-- Concrete table record used by the claim C2 witness. -/
def wItemC2 : Item :=
  { space := "did:key:zws", multihash := "z009", size := 4,
    cause := "b", insertedAt := "2024-01-01T00:00:00.000Z" }

/-- Witness for claim C2 at a concrete one-record table. -/
theorem remove_handles_absence_witness :
    (remove ([] : Table) none "did:key:zws" [9] = (.ok 0, [])) ∧
    (∃ t', remove [wItemC2] none "did:key:zws" [9] = (.ok 4, t') ∧
      remove t' none "did:key:zws" [9] = (.ok 0, t')) ∧
    (remove ([] : Table) (some "InternalServerError") "did:key:zws" [9] =
      (.errStorageFailed "InternalServerError", [])) :=
  ⟨(remove_handles_absence [] "did:key:zws" [9]).1 (by decide),
   (remove_handles_absence [wItemC2] "did:key:zws" [9]).2.1 wItemC2
     (by decide) (by decide),
   (remove_handles_absence [] "did:key:zws" [9]).2.2 "InternalServerError" (by decide)⟩

/-- Sort-key order of the allocations table: items compare by the base58btc
multihash string. -/
def itemLe (a b : Item) : Bool := lexLe a.multihash.data b.multihash.data

/-- A space's partition, ordered by the sort key, as a DynamoDB query
traverses it. -/
def spaceItems (t : Table) (s : String) : List Item :=
  sortBy itemLe (t.filter (fun i => i.space == s))

/-- Result page of a query. -/
structure QueryOut where
  items : List Item
  lastEvaluatedKey : Option (List (String × String))
deriving DecidableEq

/-- Backend rejection of a malformed request. -/
inductive DynErr
  | validationException
deriving DecidableEq

/-- `LastEvaluatedKey` of a page: present when the query stopped at the page
limit with items remaining, carrying the full primary key of the last
returned item. -/
def lastKeyOf (page rest : List Item) : Option (List (String × String)) :=
  if page.length < rest.length then
    (page.getLast?).map (fun i => [("space", i.space), ("multihash", i.multihash)])
  else none

/-- Model of DynamoDB QueryCommand over the allocations table: items of the
partition ordered by the sort key (`ScanIndexForward` picks the direction),
an optional exclusive start key, and a page limit. The `ExclusiveStartKey`
must name the table's key attributes — partition `space` and sort
`multihash` — otherwise the call is rejected with a ValidationException. -/
def query (t : Table) (s : String) (limit : Nat) (scanForward : Bool)
    (startKey : Option (List (String × String))) : Except DynErr QueryOut :=
  let sorted := spaceItems t s
  let ordered := if scanForward then sorted else sorted.reverse
  match startKey with
  | none =>
    Except.ok { items := ordered.take limit
                lastEvaluatedKey := lastKeyOf (ordered.take limit) ordered }
  | some k =>
    match k.lookup "space", k.lookup "multihash" with
    | some _, some mh =>
      let rest := if scanForward
        then ordered.dropWhile (fun i => lexLe i.multihash.data mh.data)
        else ordered.dropWhile (fun i => lexLe mh.data i.multihash.data)
      Except.ok { items := rest.take limit
                  lastEvaluatedKey := lastKeyOf (rest.take limit) rest }
    | _, _ => Except.error .validationException

/-- An entry of a list page. -/
structure BlobListItem where
  blob : Blob
  insertedAt : String
deriving DecidableEq

/-- `toBlobListResult` — allocations.js lines 230-238: the stored multihash
string is decoded back into digest bytes (the decoder would throw on a
malformed stored string; items written by `insert` always round-trip, so the
model totalizes that corner with an empty digest). -/
def toBlobListResult (i : Item) : BlobListItem :=
  { blob := { digest := (b58decode i.multihash).getD [], size := i.size }
    insertedAt := i.insertedAt }

/-- Result of `list`. -/
structure ListOk where
  size : Nat
  before : Option String
  after : Option String
  cursor : Option String
  results : List BlobListItem
deriving DecidableEq

/-- `list` — allocations.js lines 177-220. The options are `cursor`, `size`
and `pre` (the backwards flag). The exclusive start key is marshalled from
`{space, link: cursor}` exactly as the source builds it; the page limit is
`options.size || 20`; scanning runs backwards when `pre` is set and the
returned page is reversed in that case; `before`/`after` come from the first
returned record and the `LastEvaluatedKey` multihash, swapped under `pre`,
and the cursor is `after`. -/
def list (t : Table) (s : String) (cursor : Option String) (sz : Option Nat)
    (pre : Bool) : Except DynErr ListOk :=
  let exclusiveStartKey := cursor.map (fun c => [("space", s), ("link", c)])
  let limit := match sz with
    | none => 20
    | some 0 => 20
    | some (n + 1) => n + 1
  match query t s limit (!pre) exclusiveStartKey with
  | .error e => .error e
  | .ok out =>
    let results := out.items.map toBlobListResult
    let firstLinkCID := (results.head?).map (fun r => b58encode r.blob.digest)
    let lastLinkCID := out.lastEvaluatedKey.bind (fun k => k.lookup "multihash")
    let before := if pre then lastLinkCID else firstLinkCID
    let after := if pre then firstLinkCID else lastLinkCID
    .ok { size := results.length
          before := before
          after := after
          cursor := after
          results := if pre then results.reverse else results }

theorem itemLe_trans : ∀ a b c : Item,
    itemLe a b = true → itemLe b c = true → itemLe a c = true :=
  fun _ _ _ hab hbc => lexLe_trans _ _ _ hab hbc

theorem itemLe_total : ∀ a b : Item, itemLe a b = true ∨ itemLe b a = true :=
  fun a b => lexLe_total _ _

theorem mem_sortBy (le : α → α → Bool) (l : List α) (y : α)
    (h : y ∈ sortBy le l) : y ∈ l := by
  induction l with
  | nil => simpa [sortBy] using h
  | cons a as ih =>
    simp only [sortBy] at h
    rcases mem_insertSorted le a (sortBy le as) y h with h' | h'
    · simp [h']
    · simp [ih h']

theorem pairwise_spaceItems (t : Table) (s : String) :
    (spaceItems t s).Pairwise (fun a b => itemLe a b = true) :=
  pairwise_sortBy itemLe itemLe_trans itemLe_total _

theorem mem_spaceItems (t : Table) (s : String) (x : Item)
    (h : x ∈ spaceItems t s) : x ∈ t :=
  (List.mem_filter.1 (mem_sortBy itemLe _ x h)).1

theorem encode_getD_decode (m : String) (hd : ∃ d, m = b58encode d) :
    b58encode ((b58decode m).getD []) = m := by
  rcases hd with ⟨d, rfl⟩
  rw [b58decode_b58encode]
  rfl

theorem pairwise_map_results (l : List Item)
    (hpw : l.Pairwise (fun a b => itemLe a b = true))
    (hwf : ∀ i ∈ l, ∃ d, i.multihash = b58encode d) :
    (l.map toBlobListResult).Pairwise (fun a b =>
      lexLe (b58encode a.blob.digest).data (b58encode b.blob.digest).data = true) := by
  refine (List.pairwise_map).2 (hpw.imp_of_mem ?_)
  intro a b ha hb hab
  have hA := encode_getD_decode a.multihash (hwf a ha)
  have hB := encode_getD_decode b.multihash (hwf b hb)
  show lexLe (b58encode ((b58decode a.multihash).getD [])).data
      (b58encode ((b58decode b.multihash).getD [])).data = true
  rw [hA, hB]
  exact hab

/-- First input of the claim C3 counterexample. -/
def cexInp1 : BlobAddInput :=
  { space := "did:key:zws", blob := { digest := [200], size := 1 },
    cause := { str := "b1" } }

/-- Second input of the claim C3 counterexample (inserted later, but with a
smaller multihash encoding). -/
def cexInp2 : BlobAddInput :=
  { space := "did:key:zws", blob := { digest := [100], size := 2 },
    cause := { str := "b2" } }

/-- Table produced by the two counterexample inserts in chronological order. -/
def cexTable : Table :=
  (insert (insert ([] : Table) cexInp1 "2024-01-01T00:00:00.000Z").2
    cexInp2 "2024-01-02T00:00:00.000Z").2

/-- The page `list` actually returns for that table. -/
def cexResults : List BlobListItem :=
  [{ blob := { digest := [100], size := 2 },
     insertedAt := "2024-01-02T00:00:00.000Z" },
   { blob := { digest := [200], size := 1 },
     insertedAt := "2024-01-01T00:00:00.000Z" }]

/-- Claim C3 counterexample: after inserting a record at an earlier time and
a second record (with a smaller multihash encoding) at a later time, `list`
returns the later record first — the page is ordered by the multihash sort
key, not by insertion time ascending as the claim states. -/
theorem list_not_insertion_ordered_cex :
    list cexTable "did:key:zws" none none false =
      Except.ok { size := 2, before := some "z100", after := none,
                  cursor := none, results := cexResults } ∧
    ¬ List.Chain' (fun a b : BlobListItem => strLe a.insertedAt b.insertedAt = true)
        cexResults := by
  refine ⟨rfl, ?_⟩
  intro h
  have hR := (List.chain'_cons.1 h).1
  have hF : strLe "2024-01-02T00:00:00.000Z" "2024-01-01T00:00:00.000Z" = false := by
    decide
  rw [hF] at hR
  exact Bool.false_ne_true hR

/-- Claim C3 (amended): `list` with no options returns at most 20 records
(the default page size) ordered ascending by the base58btc-encoded multihash
sort key (not by insertion time); with the backwards flag `pre` the page is
drawn from the end of the range but still returned ascending; the pagination
cursor equals the returned `after` boundary; and passing any cursor back
fails with a backend ValidationException, because the continuation key is
marshalled under attribute `link` while the table's sort key is `multihash`,
so cursor paging can never continue the listing. -/
theorem list_pages_by_multihash (t : Table) (s : String)
    (hwf : ∀ i ∈ t, ∃ d, i.multihash = b58encode d) :
    (∃ out, list t s none none false = Except.ok out ∧
      out.results.length ≤ 20 ∧ out.cursor = out.after ∧
      out.results.Pairwise (fun a b =>
        lexLe (b58encode a.blob.digest).data (b58encode b.blob.digest).data = true)) ∧
    (∃ out, list t s none none true = Except.ok out ∧
      out.results.length ≤ 20 ∧ out.cursor = out.after ∧
      out.results.Pairwise (fun a b =>
        lexLe (b58encode a.blob.digest).data (b58encode b.blob.digest).data = true)) ∧
    (∀ c sz p, list t s (some c) sz p = Except.error DynErr.validationException) := by
  refine ⟨⟨_, rfl, ?_, rfl, ?_⟩, ⟨_, rfl, ?_, rfl, ?_⟩, ?_⟩
  · show ((((spaceItems t s).take 20).map toBlobListResult)).length ≤ 20
    rw [List.length_map]
    exact le_trans (List.length_take_le 20 _) (le_refl 20)
  · show ((((spaceItems t s).take 20).map toBlobListResult)).Pairwise _
    exact pairwise_map_results _
      (List.Pairwise.sublist (List.take_sublist 20 _) (pairwise_spaceItems t s))
      (fun i hi => hwf i (mem_spaceItems t s i (List.mem_of_mem_take hi)))
  · show (((((spaceItems t s).reverse.take 20).map toBlobListResult)).reverse).length ≤ 20
    rw [List.length_reverse, List.length_map]
    exact le_trans (List.length_take_le 20 _) (le_refl 20)
  · show (((((spaceItems t s).reverse.take 20).map toBlobListResult)).reverse).Pairwise _
    rw [← List.map_reverse]
    have hsub : ((spaceItems t s).reverse.take 20).reverse.Sublist (spaceItems t s) := by
      have h1 := (List.take_sublist 20 ((spaceItems t s).reverse)).reverse
      rwa [List.reverse_reverse] at h1
    refine pairwise_map_results _
      (List.Pairwise.sublist hsub (pairwise_spaceItems t s)) ?_
    intro i hi
    exact hwf i (mem_spaceItems t s i
      ((List.mem_reverse).1 (List.mem_of_mem_take ((List.mem_reverse).1 hi))))
  · intro c sz p
    rfl

/-- Concrete table record used by the claim C3 witness. -/
def wItemC3 : Item :=
  { space := "did:key:zws", multihash := "z007", size := 3,
    cause := "b", insertedAt := "2024-02-01T00:00:00.000Z" }

/-- Witness for the amended claim C3 at a concrete one-record table. -/
theorem list_pages_by_multihash_witness :
    (∃ out, list [wItemC3] "did:key:zws" none none false = Except.ok out ∧
      out.results.length ≤ 20 ∧ out.cursor = out.after ∧
      out.results.Pairwise (fun a b =>
        lexLe (b58encode a.blob.digest).data (b58encode b.blob.digest).data = true)) ∧
    (∃ out, list [wItemC3] "did:key:zws" none none true = Except.ok out ∧
      out.results.length ≤ 20 ∧ out.cursor = out.after ∧
      out.results.Pairwise (fun a b =>
        lexLe (b58encode a.blob.digest).data (b58encode b.blob.digest).data = true)) ∧
    (∀ c sz p, list [wItemC3] "did:key:zws" (some c) sz p =
      Except.error DynErr.validationException) :=
  list_pages_by_multihash [wItemC3] "did:key:zws"
    (fun i hi => by
      rw [List.mem_singleton.1 hi]
      exact ⟨[7], rfl⟩)

end UploadApi.Allocations

namespace UploadApi.Agent

/-! ## Agent Message Index — src/upload-api/stores/agent/store.js

The S3 object-store collaborator is modelled per spec section 6 (`put`,
`get`, `list` by key prefix, with a distinguishable not-found condition).
The ucanto CAR transport and views are modelled at the collaborator
interface: an agent-message archive carries a block map (content id to an
opaque payload) and a receipts map (task id to an opaque payload);
`CAR.codec.decode` recovers the block map, `CAR.request.decode` recovers the
receipts map, and the `Invocation.view`/`Receipt.view` constructors look the
requested root up in the block map, yielding null when it is absent. A JS
exception escaping a function (a rejected promise) is the `crash` outcome.
-/

/-- Modelled from the spec: the decoded content of an agent message archive
(the ucanto message is not part of the sources; spec section 3 describes an
archive containing invocations and receipts addressed by identifier). -/
structure AgentData where
  rootCid : String
  blocks : List (String × Nat)
  receipts : List (String × Nat)
deriving DecidableEq

/-- Stored object bytes: a CAR-encoded agent message, an opaque non-CAR
blob, or the empty body of a pseudo-link. -/
inductive Bytes
  | agentCar (data : AgentData)
  | blob (tag : Nat)
  | empty
deriving DecidableEq

/-- The CAR content type constant (`application/vnd.ipld.car`). -/
def carContentType : String := "application/vnd.ipld.car"

/-- Decoded CAR archive: the block map. -/
structure Archive where
  blocks : List (String × Nat)
deriving DecidableEq

/-- Modelled from the spec: `CAR.codec.decode` — recovers the block map of a
CAR archive, throwing on bytes that are not a CAR. -/
def carCodecDecode : Bytes → Except String Archive
  | .agentCar d => .ok { blocks := d.blocks }
  | _ => .error "invalid CAR"

/-- Modelled from the spec: `CAR.request.decode` — decodes the archive as a
full message bundle exposing its receipts collection. -/
def carRequestDecode : Bytes → Except String (List (String × Nat))
  | .agentCar d => .ok d.receipts
  | _ => .error "invalid CAR request"

/-- Modelled from the spec: `CAR.response.encode` — encodes message data
into the CAR archive format. -/
def carResponseEncode (d : AgentData) : Bytes := .agentCar d

/-- Modelled from the spec: `parseLink` of the multiformats library accepts
a canonical link string and throws on anything else; the sliced index-entry
roots here start with a path separator, which no canonical link does. -/
def parseLinkE (s : String) : Except String String :=
  match s.data with
  | [] => .error "invalid link"
  | c :: _ => if c = '/' then .error "invalid link" else .ok s

/-- JS truthiness of an optional string (`undefined` and the empty string
are falsy). -/
def truthy : Option String → Bool
  | none => false
  | some s => !s.data.isEmpty

/-- Is `p` a prefix of the character list? -/
def pfxCh : List Char → List Char → Bool
  | [], _ => true
  | _ :: _, [] => false
  | a :: as, b :: bs => a == b && pfxCh as bs

/-- JS `String.prototype.startsWith`. -/
def hasPfx (s p : String) : Bool := pfxCh p.data s.data

/-- JS `String.prototype.endsWith`. -/
def hasSfx (s p : String) : Bool := pfxCh p.data.reverse s.data.reverse

/-- JS `String.prototype.indexOf` for a single character (-1 when absent). -/
def jsIndexOf (s : String) (c : Char) : Int :=
  match s.data.findIdx? (fun x => x == c) with
  | some i => (i : Int)
  | none => -1

/-- JS `String.prototype.slice` with its negative-index and clamping rules. -/
def jsSlice (s : String) (a b : Int) : String :=
  let len : Int := (s.data.length : Int)
  let norm : Int → Int := fun i => if i < 0 then max (len + i) 0 else min i len
  ⟨(s.data.drop (norm a).toNat).take ((norm b).toNat - (norm a).toNat)⟩

/-- A stored S3 object. -/
structure S3Object where
  bucket : String
  key : String
  body : Bytes
deriving DecidableEq

/-- The object store state. -/
abbrev S3State := List S3Object

/-- Model of S3 PutObject: stores (or overwrites) the object at the key. -/
def putObject : S3State → String → String → Bytes → S3State
  | [], b, k, body => [{ bucket := b, key := k, body := body }]
  | o :: rest, b, k, body =>
    if o.bucket == b && o.key == k then { bucket := b, key := k, body := body } :: rest
    else o :: putObject rest b k body

/-- Model of S3 GetObject: the stored body, or a distinguishable not-found. -/
def getObject (st : S3State) (bucket key : String) : Option Bytes :=
  (st.find? (fun o => o.bucket == bucket && o.key == key)).map (fun o => o.body)

/-- Model of S3 ListObjectsV2: keys of the bucket's objects carrying the key
prefix, in the state's stored order (the real service fixes lexicographic
order; no verified property depends on which fixed order the collaborator
uses). -/
def listKeys (st : S3State) (bucket pfx : String) : List String :=
  (st.filter (fun o => o.bucket == bucket && hasPfx o.key pfx)).map (fun o => o.key)

/-- The two buckets an agent store is opened over. -/
structure Buckets where
  index : String
  message : String
deriving DecidableEq

/-- An invocation index entry of a parsed message. -/
structure InvEntry where
  task : String
  invocation : String
  message : String
deriving DecidableEq

/-- A receipt index entry of a parsed message. -/
structure RcptEntry where
  task : String
  receipt : String
  message : String
deriving DecidableEq

/-- One element of `message.index`, possibly carrying an invocation and a
receipt entry. -/
structure IndexEntryRec where
  invocation : Option InvEntry
  receipt : Option RcptEntry
deriving DecidableEq

/-- The HTTP source a message was parsed from. -/
structure Source where
  contentType : String
  body : Bytes
deriving DecidableEq

/-- A parsed agent message (`API.ParsedAgentMessage`). -/
structure ParsedAgentMessage where
  data : AgentData
  source : Source
  index : List IndexEntryRec
deriving DecidableEq

/-- An emitted store operation (an S3 put; pseudo-links carry no body). -/
structure PutOp where
  bucket : String
  key : String
  body : Option Bytes
deriving DecidableEq

/-- The put commands one `message.index` element contributes. -/
def entryOps (indexBucket : String) (e : IndexEntryRec) : List PutOp :=
  (match e.invocation with
   | some i =>
     [{ bucket := indexBucket,
        key := i.task ++ "/" ++ i.invocation ++ "@" ++ i.message ++ ".in",
        body := none }]
   | none => []) ++
  (match e.receipt with
   | some r =>
     [{ bucket := indexBucket,
        key := r.task ++ "/" ++ r.receipt ++ "@" ++ r.message ++ ".out",
        body := none }]
   | none => [])

/-- `assert` — agent/store.js lines 72-114: one archive put into the message
bucket under `{id}/{id}` (the source bytes unmodified when the declared
content type is already the CAR content type, a CAR re-encoding otherwise),
then one current-scheme pseudo-link put into the index bucket per enclosed
invocation (`.in`) and receipt (`.out`). -/
def assert (buckets : Buckets) (m : ParsedAgentMessage) : List PutOp :=
  let id := m.data.rootCid
  let body := if m.source.contentType = carContentType then m.source.body
              else carResponseEncode m.data
  ({ bucket := buckets.message, key := id ++ "/" ++ id, body := some body } : PutOp) ::
    m.index.flatMap (entryOps buckets.index)

/-- Apply one emitted put to the store state. -/
def applyPut (st : S3State) (op : PutOp) : S3State :=
  putObject st op.bucket op.key (op.body.getD Bytes.empty)

/-- `write` — lines 53-63: sends every command `assert` yields (concurrently
in the source; each put targets a distinct key, so the model applies them in
order). -/
def write (buckets : Buckets) (st : S3State) (m : ParsedAgentMessage) : S3State :=
  (assert buckets m).foldl applyPut st

/-- Outcome of an agent-store operation: an ok value, a RecordNotFound or
StorageOperationFailed result, or an exception escaping the function. -/
inductive Outcome (α : Type)
  | ok (a : α)
  | errNotFound (msg : String)
  | errStorage (msg : String)
  | crash (msg : String)
deriving DecidableEq

/-- A resolved index entry (`{root?, at}`; `at` is spelled `at_` because
`at` is reserved in Lean). -/
structure IndexEntry where
  root : Option String
  at_ : String
deriving DecidableEq

/-- `toIndexEntry` — lines 300-311, including its exact slice offsets: for a
current-scheme path the root slice starts at the separator position (keeping
the leading slash), and `at` is the text between the marker and the first
dot. -/
def toIndexEntry (path : String) : IndexEntry :=
  let start := jsIndexOf path '/'
  let offset := jsIndexOf path '@'
  if offset > 0 then
    { root := some (jsSlice path start offset)
      at_ := jsSlice path (offset + 1) (jsIndexOf path '.') }
  else
    { root := none
      at_ := jsSlice path (start + 1) (jsIndexOf path '.') }

/-- `list` — lines 321-352: lists the index bucket under the prefix, keeps
keys with the direction suffix, and reports RecordNotFound when none remain
(the catch branch maps a 404 to the same RecordNotFound; other backend
failures do not arise in the fault-free model). -/
def list (buckets : Buckets) (st : S3State) (pfx sfx : String) :
    Outcome (List String) :=
  let entries := (listKeys st buckets.index pfx).filter (fun k => hasSfx k sfx)
  if 0 < entries.length then .ok entries
  else .errNotFound ("any pseudo symlink from invocation " ++ pfx ++ "*" ++ sfx ++
    " was found")

/-- A lookup query: the task, by direction. -/
inductive AgentMessageQuery
  | invocation (task : String)
  | receipt (task : String)
deriving DecidableEq

/-- `resolve` — lines 224-265: list entries under `{task}/` with the
direction marker (`.in` for invocations, `.out` for receipts), then prefer
the first entry whose root slice is truthy, falling back to the first entry. -/
def resolve (buckets : Buckets) (st : S3State) (q : AgentMessageQuery) :
    Outcome IndexEntry :=
  let pq : String × String := match q with
    | .invocation t => (t ++ "/", ".in")
    | .receipt t => (t ++ "/", ".out")
  match list buckets st pq.1 pq.2 with
  | .errNotFound m => .errNotFound m
  | .errStorage m => .errStorage m
  | .crash m => .crash m
  | .ok [] => .errNotFound "unreachable: list never returns an empty ok"
  | .ok (first :: rest) =>
    let head := toIndexEntry first
    if truthy head.root then .ok head
    else
      match rest.find? (fun p => truthy (toIndexEntry p).root) with
      | some p => .ok (toIndexEntry p)
      | none => .ok head

/-- `read` — lines 359-393: fetches `{at}/{at}` from the *index* bucket (as
the source does), mapping absence to RecordNotFound. -/
def read (buckets : Buckets) (st : S3State) (at_ : String) : Outcome Bytes :=
  match getObject st buckets.index (at_ ++ "/" ++ at_) with
  | none => .errNotFound ("agent message archive " ++ at_ ++ " not found in store")
  | some b => .ok b

/-- `load` — lines 274-293: resolve, read the archive, decode it, and parse
the entry's root when one is present (a root that is not a canonical link
string makes the parse throw). -/
def load (buckets : Buckets) (st : S3State) (q : AgentMessageQuery) :
    Outcome (Archive × Option String) :=
  match resolve buckets st q with
  | .errNotFound m => .errNotFound m
  | .errStorage m => .errStorage m
  | .crash m => .crash m
  | .ok index =>
    match read buckets st index.at_ with
    | .errNotFound m => .errNotFound m
    | .errStorage m => .errStorage m
    | .crash m => .crash m
    | .ok bytes =>
      match carCodecDecode bytes with
      | .error m => .crash m
      | .ok archive =>
        if truthy index.root then
          match parseLinkE (index.root.getD "") with
          | .error m => .crash m
          | .ok root => .ok (archive, some root)
        else .ok (archive, none)

/-- `getInvocation` — lines 122-142: load by the invocation direction, fall
back to the task itself when no root came back (legacy index), and build the
invocation view from the archive blocks. -/
def getInvocation (buckets : Buckets) (st : S3State) (task : String) :
    Outcome Nat :=
  match load buckets st (.invocation task) with
  | .errNotFound m => .errNotFound m
  | .errStorage m => .errStorage m
  | .crash m => .crash m
  | .ok (archive, root) =>
    let invocation := root.getD task
    match archive.blocks.lookup invocation with
    | some v => .ok v
    | none => .errNotFound ""

/-- `getReceipt` — lines 150-201: first load by the *invocation* direction
(an error there is returned as is), then resolve by the receipt direction,
read that archive, and either view the receipt at the parsed root
(current scheme) or look the task up in the decoded message's receipts
collection (legacy scheme); a miss inside a decoded archive is a
RecordNotFound naming the task and archive. -/
def getReceipt (buckets : Buckets) (st : S3State) (task : String) :
    Outcome Nat :=
  match load buckets st (.invocation task) with
  | .errNotFound m => .errNotFound m
  | .errStorage m => .errStorage m
  | .crash m => .crash m
  | .ok _ =>
    match resolve buckets st (.receipt task) with
    | .errNotFound m => .errNotFound m
    | .errStorage m => .errStorage m
    | .crash m => .crash m
    | .ok entry =>
      match read buckets st entry.at_ with
      | .errNotFound m => .errNotFound m
      | .errStorage m => .errStorage m
      | .crash m => .crash m
      | .ok body =>
        if truthy entry.root then
          match carCodecDecode body with
          | .error m => .crash m
          | .ok archive =>
            match parseLinkE (entry.root.getD "") with
            | .error m => .crash m
            | .ok root =>
              match archive.blocks.lookup root with
              | some r => .ok r
              | none => .errNotFound ("agent message " ++ entry.at_ ++
                  " does not contain receipt for " ++ task ++ " task")
        else
          match carRequestDecode body with
          | .error m => .crash m
          | .ok receipts =>
            match receipts.lookup task with
            | some r => .ok r
            | none => .errNotFound ("agent message " ++ entry.at_ ++
                " does not contain receipt for " ++ task ++ " task")

end UploadApi.Agent

namespace UploadApi.Agent

theorem length_flatMap_entryOps (ib : String) (l : List IndexEntryRec) :
    (l.flatMap (entryOps ib)).length =
      l.countP (fun e => e.invocation.isSome) +
        l.countP (fun e => e.receipt.isSome) := by
  induction l with
  | nil => rfl
  | cons e rest ih =>
    rcases e with ⟨inv, rcpt⟩
    rcases inv with _ | i <;> rcases rcpt with _ | r <;>
      simp [List.flatMap_cons, entryOps, List.countP_cons, ih] <;> omega

/-- Claim C7: for a message with n invocation entries and m receipt entries,
the write path emits exactly 1 + n + m store operations — the archive put
into the message bucket under `{id}/{id}` first (storing the source bytes
unmodified exactly when the declared content type is the CAR content type,
re-encoding the message otherwise), plus one current-scheme `.in`
pseudo-link per invocation and one `.out` pseudo-link per receipt in the
index bucket. -/
theorem assert_write_shape (buckets : Buckets) (m : ParsedAgentMessage) :
    (assert buckets m).length =
      1 + m.index.countP (fun e => e.invocation.isSome) +
        m.index.countP (fun e => e.receipt.isSome) ∧
    (assert buckets m).head? = some
      { bucket := buckets.message
        key := m.data.rootCid ++ "/" ++ m.data.rootCid
        body := some (if m.source.contentType = carContentType then m.source.body
                      else carResponseEncode m.data) } ∧
    (∀ e ∈ m.index, ∀ i, e.invocation = some i →
      ({ bucket := buckets.index
         key := i.task ++ "/" ++ i.invocation ++ "@" ++ i.message ++ ".in"
         body := none } : PutOp) ∈ assert buckets m) ∧
    (∀ e ∈ m.index, ∀ r, e.receipt = some r →
      ({ bucket := buckets.index
         key := r.task ++ "/" ++ r.receipt ++ "@" ++ r.message ++ ".out"
         body := none } : PutOp) ∈ assert buckets m) := by
  refine ⟨?_, rfl, ?_, ?_⟩
  · show ((_ : PutOp) :: m.index.flatMap (entryOps buckets.index)).length = _
    rw [List.length_cons, length_flatMap_entryOps]
    omega
  · intro e he i hi
    have hop : ({ bucket := buckets.index
                  key := i.task ++ "/" ++ i.invocation ++ "@" ++ i.message ++ ".in"
                  body := none } : PutOp) ∈ entryOps buckets.index e := by
      rcases e with ⟨inv, rcpt⟩
      simp only at hi
      subst hi
      rcases rcpt with _ | r <;> simp [entryOps]
    exact List.mem_cons.2 (Or.inr (List.mem_flatMap.2 ⟨e, he, hop⟩))
  · intro e he r hr
    have hop : ({ bucket := buckets.index
                  key := r.task ++ "/" ++ r.receipt ++ "@" ++ r.message ++ ".out"
                  body := none } : PutOp) ∈ entryOps buckets.index e := by
      rcases e with ⟨inv, rcpt⟩
      simp only at hr
      subst hr
      rcases inv with _ | i <;> simp [entryOps]
    exact List.mem_cons.2 (Or.inr (List.mem_flatMap.2 ⟨e, he, hop⟩))

/-- Concrete buckets for the claim C7 witness. -/
def c7Buckets : Buckets := { index := "idx", message := "msg" }

/-- Concrete message data for the claim C7 witness. -/
def c7Data : AgentData :=
  { rootCid := "m", blocks := [("i", 5)], receipts := [("t", 7)] }

/-- Concrete parsed message (one invocation, one receipt) for the claim C7
witness; its declared content type is the CAR content type. -/
def c7Msg : ParsedAgentMessage :=
  { data := c7Data
    source := { contentType := carContentType, body := .agentCar c7Data }
    index := [{ invocation := some { task := "t", invocation := "i", message := "m" }
                receipt := some { task := "t", receipt := "r", message := "m" } }] }

/-- Witness for claim C7 at the concrete message. -/
theorem assert_write_shape_witness :
    (assert c7Buckets c7Msg).length = 3 ∧
    (assert c7Buckets c7Msg).head? = some
      { bucket := "msg", key := "m/m", body := some (.agentCar c7Data) } ∧
    ({ bucket := "idx", key := "t/i@m.in", body := none } : PutOp) ∈
      assert c7Buckets c7Msg ∧
    ({ bucket := "idx", key := "t/r@m.out", body := none } : PutOp) ∈
      assert c7Buckets c7Msg := by
  have h := assert_write_shape c7Buckets c7Msg
  refine ⟨?_, ?_, ?_, ?_⟩
  · rw [h.1]; rfl
  · rw [h.2.1]; rfl
  · exact h.2.2.1 { invocation := some { task := "t", invocation := "i", message := "m" },
                    receipt := some { task := "t", receipt := "r", message := "m" } }
      (by simp [c7Msg]) { task := "t", invocation := "i", message := "m" } rfl
  · exact h.2.2.2 { invocation := some { task := "t", invocation := "i", message := "m" },
                    receipt := some { task := "t", receipt := "r", message := "m" } }
      (by simp [c7Msg]) { task := "t", receipt := "r", message := "m" } rfl

/-- Buckets of the claim C4 failing input: distinct index and message
buckets. -/
def c4Buckets : Buckets := { index := "idx", message := "msg" }

/-- Message data of the claim C4 failing input. -/
def c4Data : AgentData :=
  { rootCid := "m", blocks := [("i", 5)], receipts := [("t", 7)] }

/-- The claim C4 failing input: a message with exactly one invocation entry
(task t, invocation i) and one receipt entry (task t, receipt r). -/
def c4Msg : ParsedAgentMessage :=
  { data := c4Data
    source := { contentType := carContentType, body := .agentCar c4Data }
    index := [{ invocation := some { task := "t", invocation := "i", message := "m" }
                receipt := some { task := "t", receipt := "r", message := "m" } }] }

/-- Store state after writing the failing input with distinct buckets. -/
def c4St : S3State := write c4Buckets [] c4Msg

/-- Store state after writing the failing input with one shared bucket. -/
def c4StSame : S3State := write { index := "b", message := "b" } [] c4Msg

/-- Claim C4 evaluated at the failing input: `write` stores the archive in
the message bucket, but `read` fetches archives from the index bucket, so
`getInvocation` and `getReceipt` return RecordNotFound instead of the views;
even with index and message configured as one bucket, the current-scheme
root slice keeps its leading slash and the link parse throws, so
`getInvocation` crashes rather than returning the view. -/
theorem write_then_get_fails_cex :
    getObject c4St "msg" "m/m" = some (.agentCar c4Data) ∧
    getInvocation c4Buckets c4St "t" =
      .errNotFound "agent message archive m not found in store" ∧
    getReceipt c4Buckets c4St "t" =
      .errNotFound "agent message archive m not found in store" ∧
    getInvocation { index := "b", message := "b" } c4StSame "t" =
      .crash "invalid link" :=
  ⟨rfl, rfl, rfl, rfl⟩

/-- The entry `resolve` picks from a non-empty candidate list: the first
entry whose root slice is truthy, else the first entry. -/
def selectEntry (first : String) (rest : List String) : IndexEntry :=
  toIndexEntry (((first :: rest).find? (fun p => truthy (toIndexEntry p).root)).getD first)

/-- Claim C5: for every non-empty candidate entry list of a task (in either
direction), resolve returns the first entry in listing order that encodes a
root-counterpart identifier (current scheme), and falls back to the first
entry of the list when none does. -/
theorem resolve_disambiguation (buckets : Buckets) (st : S3State) (t : String) :
    (∀ first rest,
      (listKeys st buckets.index (t ++ "/")).filter (fun k => hasSfx k ".in") =
        first :: rest →
      resolve buckets st (.invocation t) = .ok (selectEntry first rest)) ∧
    (∀ first rest,
      (listKeys st buckets.index (t ++ "/")).filter (fun k => hasSfx k ".out") =
        first :: rest →
      resolve buckets st (.receipt t) = .ok (selectEntry first rest)) := by
  constructor
  · intro first rest h
    show (match list buckets st (t ++ "/") ".in" with
      | .errNotFound m => Outcome.errNotFound m
      | .errStorage m => Outcome.errStorage m
      | .crash m => Outcome.crash m
      | .ok [] => Outcome.errNotFound "unreachable: list never returns an empty ok"
      | .ok (first :: rest) =>
        let head := toIndexEntry first
        if truthy head.root then Outcome.ok head
        else
          match rest.find? (fun p => truthy (toIndexEntry p).root) with
          | some p => Outcome.ok (toIndexEntry p)
          | none => Outcome.ok head) = Outcome.ok (selectEntry first rest)
    rw [list, h]
    simp only [List.length_cons, Nat.zero_lt_succ, if_true]
    by_cases hf : truthy (toIndexEntry first).root
    · simp [hf, selectEntry, List.find?_cons_of_pos _ hf]
    · rw [if_neg (by simpa using hf)]
      rcases hr : rest.find? (fun p => truthy (toIndexEntry p).root) with _ | p
      · have hfind : (first :: rest).find? (fun p => truthy (toIndexEntry p).root) = none := by
          rw [List.find?_cons_of_neg _ (by simpa using hf), hr]
        simp [selectEntry, hfind]
      · have hfind : (first :: rest).find? (fun p => truthy (toIndexEntry p).root) = some p := by
          rw [List.find?_cons_of_neg _ (by simpa using hf), hr]
        simp [selectEntry, hfind]
  · intro first rest h
    show (match list buckets st (t ++ "/") ".out" with
      | .errNotFound m => Outcome.errNotFound m
      | .errStorage m => Outcome.errStorage m
      | .crash m => Outcome.crash m
      | .ok [] => Outcome.errNotFound "unreachable: list never returns an empty ok"
      | .ok (first :: rest) =>
        let head := toIndexEntry first
        if truthy head.root then Outcome.ok head
        else
          match rest.find? (fun p => truthy (toIndexEntry p).root) with
          | some p => Outcome.ok (toIndexEntry p)
          | none => Outcome.ok head) = Outcome.ok (selectEntry first rest)
    rw [list, h]
    simp only [List.length_cons, Nat.zero_lt_succ, if_true]
    by_cases hf : truthy (toIndexEntry first).root
    · simp [hf, selectEntry, List.find?_cons_of_pos _ hf]
    · rw [if_neg (by simpa using hf)]
      rcases hr : rest.find? (fun p => truthy (toIndexEntry p).root) with _ | p
      · have hfind : (first :: rest).find? (fun p => truthy (toIndexEntry p).root) = none := by
          rw [List.find?_cons_of_neg _ (by simpa using hf), hr]
        simp [selectEntry, hfind]
      · have hfind : (first :: rest).find? (fun p => truthy (toIndexEntry p).root) = some p := by
          rw [List.find?_cons_of_neg _ (by simpa using hf), hr]
        simp [selectEntry, hfind]

/-- Concrete index-bucket contents for the claim C5 witness: a legacy entry
listed first, a current-scheme entry second. -/
def c5St : S3State :=
  [{ bucket := "idx", key := "t/m0.in", body := .empty },
   { bucket := "idx", key := "t/i@m1.in", body := .empty }]

/-- Witness for claim C5: the current-scheme entry wins over the legacy
entry listed before it. -/
theorem resolve_disambiguation_witness :
    resolve { index := "idx", message := "msg" } c5St (.invocation "t") =
      .ok { root := some "/i", at_ := "m1" } := by
  have h := (resolve_disambiguation { index := "idx", message := "msg" } c5St "t").1
    "t/m0.in" ["t/i@m1.in"] rfl
  rw [h]
  rfl

end UploadApi.Agent

namespace UploadApi.Agent

/-- Buckets of the claim C6 counterexample. -/
def c6Buckets : Buckets := { index := "idx", message := "msg" }

/-- Archive data of the claim C6 counterexample: it contains a receipt for
task t. -/
def c6Data : AgentData := { rootCid := "m", blocks := [], receipts := [("t", 7)] }

/-- First store of the claim C6 counterexample: legacy `.in` and `.out`
pseudo-links for task t, plus the archive object. -/
def c6St1 : S3State :=
  [{ bucket := "idx", key := "t/m.in", body := .empty },
   { bucket := "idx", key := "t/m.out", body := .empty },
   { bucket := "idx", key := "m/m", body := .agentCar c6Data }]

/-- Second store of the claim C6 counterexample: identical except the `.in`
pseudo-link is absent. -/
def c6St2 : S3State :=
  [{ bucket := "idx", key := "t/m.out", body := .empty },
   { bucket := "idx", key := "m/m", body := .agentCar c6Data }]

/-- Claim C6 counterexample: both stores expose the same `.out`-suffixed
keys for task t and the same archive object, yet `getReceipt` answers
differently — it succeeds on the first store and returns RecordNotFound on
the second, because it first performs an invocation-direction lookup over
the `.in` keys. A receipt lookup therefore does not consult only keys ending
in the outgoing marker. -/
theorem getReceipt_reads_in_keys_cex :
    (listKeys c6St1 "idx" "t/").filter (fun k => hasSfx k ".out") =
      (listKeys c6St2 "idx" "t/").filter (fun k => hasSfx k ".out") ∧
    getObject c6St1 "idx" "m/m" = getObject c6St2 "idx" "m/m" ∧
    getReceipt c6Buckets c6St1 "t" = .ok 7 ∧
    getReceipt c6Buckets c6St2 "t" =
      .errNotFound "any pseudo symlink from invocation t/*.in was found" :=
  ⟨rfl, rfl, rfl, rfl⟩

/-- What `resolve` computes from a candidate entry list alone: RecordNotFound
when the list is empty (with the message `list` produces), else the
preferred entry. -/
def resolveEntries (pfx sfx : String) (entries : List String) : Outcome IndexEntry :=
  match entries with
  | [] => .errNotFound ("any pseudo symlink from invocation " ++ pfx ++ "*" ++ sfx ++
      " was found")
  | first :: rest =>
    let head := toIndexEntry first
    if truthy head.root then .ok head
    else
      match rest.find? (fun p => truthy (toIndexEntry p).root) with
      | some p => .ok (toIndexEntry p)
      | none => .ok head

/-- Claim C6 (amended): an invocation-direction lookup is a function of the
stored keys prefixed by the task and ending in `.in` alone, and a
receipt-direction lookup of the `.out`-suffixed keys alone — zero matching
keys yields RecordNotFound in either direction — but `getReceipt` as a whole
first performs the invocation-direction lookup, so with no `.in` key for the
task it returns that RecordNotFound before ever consulting an `.out` key. -/
theorem resolve_consults_direction (buckets : Buckets) (st : S3State) (t : String) :
    resolve buckets st (.invocation t) =
      resolveEntries (t ++ "/") ".in"
        ((listKeys st buckets.index (t ++ "/")).filter (fun k => hasSfx k ".in")) ∧
    resolve buckets st (.receipt t) =
      resolveEntries (t ++ "/") ".out"
        ((listKeys st buckets.index (t ++ "/")).filter (fun k => hasSfx k ".out")) ∧
    ((listKeys st buckets.index (t ++ "/")).filter (fun k => hasSfx k ".in") = [] →
      getReceipt buckets st t = .errNotFound
        ("any pseudo symlink from invocation " ++ (t ++ "/") ++ "*" ++ ".in" ++
          " was found")) := by
  have hbranch : ∀ sfx : String,
      (match list buckets st (t ++ "/") sfx with
        | .errNotFound m => Outcome.errNotFound m
        | .errStorage m => Outcome.errStorage m
        | .crash m => Outcome.crash m
        | .ok [] => Outcome.errNotFound "unreachable: list never returns an empty ok"
        | .ok (first :: rest) =>
          let head := toIndexEntry first
          if truthy head.root then Outcome.ok head
          else
            match rest.find? (fun p => truthy (toIndexEntry p).root) with
            | some p => Outcome.ok (toIndexEntry p)
            | none => Outcome.ok head) =
      resolveEntries (t ++ "/") sfx
        ((listKeys st buckets.index (t ++ "/")).filter (fun k => hasSfx k sfx)) := by
    intro sfx
    rw [list]
    rcases h : (listKeys st buckets.index (t ++ "/")).filter (fun k => hasSfx k sfx) with
      _ | ⟨first, rest⟩
    · rfl
    · simp only [List.length_cons, Nat.zero_lt_succ, if_true, resolveEntries]
  refine ⟨hbranch ".in", hbranch ".out", ?_⟩
  intro h
  have hres : resolve buckets st (.invocation t) = .errNotFound
      ("any pseudo symlink from invocation " ++ (t ++ "/") ++ "*" ++ ".in" ++
        " was found") := by
    have h1 := hbranch ".in"
    rw [h] at h1
    exact h1
  show (match load buckets st (.invocation t) with
    | .errNotFound m => Outcome.errNotFound m
    | .errStorage m => Outcome.errStorage m
    | .crash m => Outcome.crash m
    | .ok _ =>
      match resolve buckets st (.receipt t) with
      | .errNotFound m => Outcome.errNotFound m
      | .errStorage m => Outcome.errStorage m
      | .crash m => Outcome.crash m
      | .ok entry =>
        match read buckets st entry.at_ with
        | .errNotFound m => Outcome.errNotFound m
        | .errStorage m => Outcome.errStorage m
        | .crash m => Outcome.crash m
        | .ok body =>
          if truthy entry.root then
            match carCodecDecode body with
            | .error m => Outcome.crash m
            | .ok archive =>
              match parseLinkE (entry.root.getD "") with
              | .error m => Outcome.crash m
              | .ok root =>
                match archive.blocks.lookup root with
                | some r => Outcome.ok r
                | none => Outcome.errNotFound ("agent message " ++ entry.at_ ++
                    " does not contain receipt for " ++ t ++ " task")
          else
            match carRequestDecode body with
            | .error m => Outcome.crash m
            | .ok receipts =>
              match receipts.lookup t with
              | some r => Outcome.ok r
              | none => Outcome.errNotFound ("agent message " ++ entry.at_ ++
                  " does not contain receipt for " ++ t ++ " task")) = _
  rw [show load buckets st (.invocation t) = .errNotFound
      ("any pseudo symlink from invocation " ++ (t ++ "/") ++ "*" ++ ".in" ++
        " was found") from by
    show (match resolve buckets st (.invocation t) with
      | .errNotFound m => Outcome.errNotFound m
      | .errStorage m => Outcome.errStorage m
      | .crash m => Outcome.crash m
      | .ok index =>
        match read buckets st index.at_ with
        | .errNotFound m => Outcome.errNotFound m
        | .errStorage m => Outcome.errStorage m
        | .crash m => Outcome.crash m
        | .ok bytes =>
          match carCodecDecode bytes with
          | .error m => Outcome.crash m
          | .ok archive =>
            if truthy index.root then
              match parseLinkE (index.root.getD "") with
              | .error m => Outcome.crash m
              | .ok root => Outcome.ok (archive, some root)
            else Outcome.ok (archive, none)) = _
    rw [hres]]

/-- Store used by the claim C6 amended-theorem witness: an `.out` entry but
no `.in` entry for task t. -/
def c6wSt : S3State :=
  [{ bucket := "idx", key := "t/m.out", body := .empty },
   { bucket := "idx", key := "m/m", body := .agentCar c6Data }]

/-- Witness for the amended claim C6 at a concrete store. -/
theorem resolve_consults_direction_witness :
    resolve c6Buckets c6wSt (.invocation "t") =
      resolveEntries ("t" ++ "/") ".in"
        ((listKeys c6wSt c6Buckets.index ("t" ++ "/")).filter (fun k => hasSfx k ".in")) ∧
    resolve c6Buckets c6wSt (.receipt "t") =
      resolveEntries ("t" ++ "/") ".out"
        ((listKeys c6wSt c6Buckets.index ("t" ++ "/")).filter (fun k => hasSfx k ".out")) ∧
    getReceipt c6Buckets c6wSt "t" = .errNotFound
      ("any pseudo symlink from invocation " ++ ("t" ++ "/") ++ "*" ++ ".in" ++
        " was found") :=
  ⟨(resolve_consults_direction c6Buckets c6wSt "t").1,
   (resolve_consults_direction c6Buckets c6wSt "t").2.1,
   (resolve_consults_direction c6Buckets c6wSt "t").2.2 rfl⟩

end UploadApi.Agent

namespace UploadApi.Roundabout

/-! ## Redirect handler — src/unnamed/part_000 (the roundabout lambda)

The pieces the handler composes that are repository code outside the given
sources — `findEquivalentCids`, `asPieceCidV1`, `asPieceCidV2` (piece.js),
`contentLocationResolver` (index.js) and `parseQueryStringParameters`
(utils.js) — are modelled from the spec (sections 4.1, 4.2 and 6): CID
parsing and content location live in an environment record, piece-ness is a
property of the parsed identifier, and the equivalence set is a pure
function whose result list carries the set's iteration order.
-/

/-- The identifier kinds the handler distinguishes. -/
inductive CidKind
  | pieceV2
  | pieceV1
  | content
deriving DecidableEq

/-- A parsed content identifier. -/
structure Cid where
  kind : CidKind
  name : String
deriving DecidableEq

/-- Modelled from the spec: `asPieceCidV2` (piece.js, not among the given
sources) — the identifier itself when it is a v2 piece CID. -/
def asPieceCidV2 (c : Cid) : Option Cid :=
  if c.kind = .pieceV2 then some c else none

/-- Modelled from the spec: `asPieceCidV1` (piece.js, not among the given
sources) — the identifier itself when it is a v1 piece CID. -/
def asPieceCidV1 (c : Cid) : Option Cid :=
  if c.kind = .pieceV1 then some c else none

/-- The external collaborators of the handler: CID parsing (multiformats),
the pure equivalence enumeration (spec 4.1; the list order is the set's
iteration order) and the content location resolver (spec 4.2; a signed URL
on hit, absence on miss, parameterized by the requested expiry). -/
structure Env where
  parseCid : String → Except String Cid
  equivalents : Cid → List Cid
  locate : Option Nat → Cid → Option String

/-- The request fields the handler reads. -/
structure Request where
  expiresIn : Option String
  cid : Option String

/-- Modelled from the spec: `parseQueryStringParameters` (utils.js, not
among the given sources) — the optional `expiresIn` parameter parses to a
number or throws on malformed input. -/
def parseQueryStringParameters (q : Option String) : Except String (Option Nat) :=
  match q with
  | none => .ok none
  | some s =>
    match decToNat s with
    | some n => .ok (some n)
    | none => .error "invalid expiresIn"

/-- A lambda response. -/
structure Response where
  statusCode : Nat
  body : Option String
  location : Option String
deriving DecidableEq

/-- `redirectTo` — part_000 lines 138-145. -/
def redirectTo (url : String) : Response :=
  { statusCode := 302, body := none, location := some url }

/-- `resolveContent` — lines 61-67. -/
def resolveContent (cid : Cid) (locate : Cid → Option String) : Response :=
  match locate cid with
  | some url => redirectTo url
  | none => { statusCode := 404, body := some "Content Not found", location := none }

/-- The candidate loop of `resolvePiece` — lines 80-86. -/
def resolvePieceGo (locate : Cid → Option String) : List Cid → Response
  | [] => { statusCode := 404, body := some "No content found for Piece CID",
            location := none }
  | c :: rest =>
    match locate c with
    | some url => redirectTo url
    | none => resolvePieceGo locate rest

/-- `resolvePiece` — lines 75-87: an empty equivalence set is its own 404,
distinct from exhausting a non-empty set. -/
def resolvePiece (cid : Cid) (equivalents : Cid → List Cid)
    (locate : Cid → Option String) : Response :=
  let cids := equivalents cid
  if cids.length = 0 then
    { statusCode := 404, body := some "No equivalent CID for Piece CID found",
      location := none }
  else resolvePieceGo locate cids

/-- The candidates the loop actually probes, in order: every miss before the
first hit, then the hit; the whole list when nothing hits. -/
def probedPieces (locate : Cid → Option String) : List Cid → List Cid
  | [] => []
  | c :: rest =>
    match locate c with
    | some _ => [c]
    | none => c :: probedPieces locate rest

/-- `redirectGet` — lines 20-53: parse failures are 400; a v2 piece CID goes
through piece resolution; a v1 piece CID is 415; anything else goes through
content resolution; an unhandled identifier would fall back to the 415
`Unsupported CID type` response. -/
def redirectGet (env : Env) (req : Request) : Response :=
  match parseQueryStringParameters req.expiresIn with
  | .error msg => { statusCode := 400, body := some msg, location := none }
  | .ok expiresIn =>
    match env.parseCid (req.cid.getD "") with
    | .error msg => { statusCode := 400, body := some msg, location := none }
    | .ok cid =>
      let locate := env.locate expiresIn
      let response : Option Response :=
        if (asPieceCidV2 cid).isSome then
          some (resolvePiece cid env.equivalents locate)
        else if (asPieceCidV1 cid).isSome then
          some { statusCode := 415
                 body := some "v1 Piece CIDs are not supported yet"
                 location := none }
        else some (resolveContent cid locate)
      response.getD { statusCode := 415, body := some "Unsupported CID type",
                      location := none }

theorem resolvePieceGo_hit (locate : Cid → Option String) (cids : List Cid)
    (c : Cid) (h : cids.find? (fun x => (locate x).isSome) = some c) :
    resolvePieceGo locate cids = redirectTo ((locate c).getD "") ∧
    probedPieces locate cids =
      cids.takeWhile (fun x => !(locate x).isSome) ++ [c] := by
  induction cids with
  | nil => simp [List.find?] at h
  | cons a rest ih =>
    rcases hl : locate a with _ | url
    · have hfa : ((fun x => (locate x).isSome) a) = false := by simp [hl]
      rw [List.find?_cons_of_neg _ (by simp [hl])] at h
      rcases ih h with ⟨h1, h2⟩
      constructor
      · rw [resolvePieceGo, hl, h1]
      · rw [probedPieces, hl, h2, List.takeWhile_cons_of_pos (by simp [hl])]
        rfl
    · rw [List.find?_cons_of_pos _ (by simp [hl])] at h
      obtain rfl := Option.some_inj.1 h
      constructor
      · rw [resolvePieceGo, hl]
        simp [hl]
      · rw [probedPieces, hl, List.takeWhile_cons_of_neg (by simp [hl])]
        rfl

theorem resolvePieceGo_miss (locate : Cid → Option String) (cids : List Cid)
    (h : ∀ x ∈ cids, locate x = none) :
    resolvePieceGo locate cids =
      { statusCode := 404, body := some "No content found for Piece CID",
        location := none } ∧
    probedPieces locate cids = cids := by
  induction cids with
  | nil => exact ⟨rfl, rfl⟩
  | cons a rest ih =>
    have ha : locate a = none := h a (by simp)
    rcases ih (fun x hx => h x (by simp [hx])) with ⟨h1, h2⟩
    constructor
    · rw [resolvePieceGo, ha, h1]
    · rw [probedPieces, ha, h2]

/-- Claim C9: piece resolution probes the candidates sequentially in the
equivalence set's iteration order — everything before the first hit, then
the hit and no later candidate — returning a redirect for the first hit;
exhausting a non-empty set yields the `No content found` 404, which differs
from the empty-equivalence-set 404. -/
theorem resolvePiece_sequential (cid : Cid) (equivalents : Cid → List Cid)
    (locate : Cid → Option String) :
    (equivalents cid = [] →
      resolvePiece cid equivalents locate =
        { statusCode := 404, body := some "No equivalent CID for Piece CID found",
          location := none }) ∧
    (∀ c, (equivalents cid).find? (fun x => (locate x).isSome) = some c →
      resolvePiece cid equivalents locate = redirectTo ((locate c).getD "") ∧
      probedPieces locate (equivalents cid) =
        (equivalents cid).takeWhile (fun x => !(locate x).isSome) ++ [c]) ∧
    (equivalents cid ≠ [] → (∀ x ∈ equivalents cid, locate x = none) →
      resolvePiece cid equivalents locate =
        { statusCode := 404, body := some "No content found for Piece CID",
          location := none } ∧
      probedPieces locate (equivalents cid) = equivalents cid) ∧
    ({ statusCode := 404, body := some "No content found for Piece CID",
       location := none } : Response) ≠
      { statusCode := 404, body := some "No equivalent CID for Piece CID found",
        location := none } := by
  refine ⟨?_, ?_, ?_, by decide⟩
  · intro h
    rw [resolvePiece, h]
    rfl
  · intro c hc
    have hne : (equivalents cid).length ≠ 0 := by
      intro hz
      rw [List.length_eq_zero.1 hz] at hc
      simp [List.find?] at hc
    rw [resolvePiece, if_neg hne]
    exact resolvePieceGo_hit locate (equivalents cid) c hc
  · intro hne hmiss
    rw [resolvePiece, if_neg (by simpa using hne)]
    exact resolvePieceGo_miss locate (equivalents cid) hmiss

/-- Concrete pieces for the claim C9 witness: three candidates, the second
of which is in storage. -/
def c9Locate : Cid → Option String :=
  fun x => if x.name = "c2" then some "https://signed" else none

/-- Candidate list of the claim C9 witness. -/
def c9Cids : List Cid :=
  [{ kind := .content, name := "c1" }, { kind := .content, name := "c2" },
   { kind := .content, name := "c3" }]

/-- Witness for claim C9: the second candidate hits; the first is probed,
the third is not. -/
theorem resolvePiece_sequential_witness :
    resolvePiece { kind := .pieceV2, name := "p" } (fun _ => c9Cids) c9Locate =
      redirectTo "https://signed" ∧
    probedPieces c9Locate c9Cids =
      [{ kind := .content, name := "c1" }, { kind := .content, name := "c2" }] := by
  have h := (resolvePiece_sequential { kind := .pieceV2, name := "p" }
    (fun _ => c9Cids) c9Locate).2.1 { kind := .content, name := "c2" } (by decide)
  refine ⟨?_, ?_⟩
  · rw [h.1]; rfl
  · rw [h.2]; rfl

/-- Claim C8: the status mapping of `redirectGet` — 400 when the query
parameters or the identifier fail to parse; 415 for a v1 piece CID; for a
content CID a 302 redirect with the Location header on a hit and 404 on a
miss; for a v2 piece CID a 302 redirect for the first resolving equivalent
and 404 when none resolves (including the empty equivalence set). -/
theorem redirectGet_status_mapping (env : Env) (req : Request) :
    (∀ msg, parseQueryStringParameters req.expiresIn = .error msg →
      (redirectGet env req).statusCode = 400) ∧
    (∀ e msg, parseQueryStringParameters req.expiresIn = .ok e →
      env.parseCid (req.cid.getD "") = .error msg →
      (redirectGet env req).statusCode = 400) ∧
    (∀ e cid, parseQueryStringParameters req.expiresIn = .ok e →
      env.parseCid (req.cid.getD "") = .ok cid →
      ((cid.kind = .pieceV1 → (redirectGet env req).statusCode = 415) ∧
       (cid.kind = .content → ∀ url, env.locate e cid = some url →
         redirectGet env req = redirectTo url) ∧
       (cid.kind = .content → env.locate e cid = none →
         (redirectGet env req).statusCode = 404) ∧
       (cid.kind = .pieceV2 →
         ∀ c, (env.equivalents cid).find? (fun x => (env.locate e x).isSome) = some c →
         redirectGet env req = redirectTo ((env.locate e c).getD "")) ∧
       (cid.kind = .pieceV2 → (∀ x ∈ env.equivalents cid, env.locate e x = none) →
         (redirectGet env req).statusCode = 404))) ∧
    (∀ url, (redirectTo url).statusCode = 302 ∧ (redirectTo url).location = some url) := by
  refine ⟨?_, ?_, ?_, fun url => ⟨rfl, rfl⟩⟩
  · intro msg hq
    rw [redirectGet, hq]
  · intro e msg hq hc
    rw [redirectGet, hq, hc]
  · intro e cid hq hc
    refine ⟨?_, ?_, ?_, ?_, ?_⟩
    · intro hk
      rw [redirectGet, hq, hc]
      simp [asPieceCidV2, asPieceCidV1, hk]
    · intro hk url hloc
      rw [redirectGet, hq, hc]
      simp [asPieceCidV2, asPieceCidV1, hk, resolveContent, hloc]
    · intro hk hloc
      rw [redirectGet, hq, hc]
      simp [asPieceCidV2, asPieceCidV1, hk, resolveContent, hloc]
    · intro hk c hfind
      rw [redirectGet, hq, hc]
      simp only [asPieceCidV2, hk, if_true, Option.isSome_some, if_pos trivial,
        Option.getD_some]
      have hne : (env.equivalents cid).length ≠ 0 := by
        intro hz
        rw [List.length_eq_zero.1 hz] at hfind
        simp [List.find?] at hfind
      rw [resolvePiece, if_neg hne]
      exact (resolvePieceGo_hit (env.locate e) (env.equivalents cid) c hfind).1
    · intro hk hmiss
      rw [redirectGet, hq, hc]
      simp only [asPieceCidV2, hk, if_true, Option.isSome_some, if_pos trivial,
        Option.getD_some]
      rw [resolvePiece]
      by_cases hz : (env.equivalents cid).length = 0
      · rw [if_pos hz]
      · rw [if_neg hz]
        rw [(resolvePieceGo_miss (env.locate e) (env.equivalents cid) hmiss).1]

/-- Environment of the claim C8 witness. -/
def c8Env : Env :=
  { parseCid := fun s => if s = "bafyGood" then .ok { kind := .content, name := s }
      else .error "invalid CID"
    equivalents := fun _ => []
    locate := fun _ c => if c.name = "bafyGood" then some "https://signed" else none }

/-- Witness for claim C8: a well-formed resolvable content CID redirects. -/
theorem redirectGet_status_mapping_witness :
    redirectGet c8Env { expiresIn := none, cid := some "bafyGood" } =
      redirectTo "https://signed" ∧
    (redirectGet c8Env { expiresIn := none, cid := some "bad" }).statusCode = 400 :=
  ⟨((redirectGet_status_mapping c8Env
      { expiresIn := none, cid := some "bafyGood" }).2.2.1
      none { kind := .content, name := "bafyGood" } rfl rfl).2.1 rfl
      "https://signed" rfl,
   (redirectGet_status_mapping c8Env
      { expiresIn := none, cid := some "bad" }).2.1 none "invalid CID" rfl rfl⟩

end UploadApi.Roundabout

namespace UploadApi.Billing

/-! ## Space snapshot codec — src/billing/data/space-snapshot.js

The ucanto `Schema` validators and the JS `Date`/`BigInt` runtime are
external; they are modelled at the interface boundary: a DID is a string
with the `did:` scheme and a `did:web` DID one with the `did:web:` scheme; a
valid date is its epoch-millisecond value, `toISOString` renders it
injectively at millisecond precision and the `Date` constructor parses that
rendering back (the model renders the epoch value in decimal; a stored date
string outside the image — which `encode` never produces — is folded into
the decode failure); `BigInt.prototype.toString` and `BigInt(string)` are
the verified decimal codec. -/

/-- Modelled from the spec: `Schema.did()` — accepts strings with the DID
scheme. -/
def isDid (s : String) : Bool := Agent.hasPfx s "did:"

/-- Modelled from the spec: `Schema.did({method:'web'})`. -/
def isDidWeb (s : String) : Bool := Agent.hasPfx s "did:web:"

/-- `Date.prototype.toISOString` at the interface: an injective rendering of
the epoch-millisecond value. -/
def dateToISO (t : Int) : String := intToDec t ++ "Z"

/-- Drop the final character. -/
def chopLast (s : String) : String := ⟨s.data.dropLast⟩

/-- `new Date(string)` at the interface: inverts `dateToISO` on its image. -/
def parseDateISO (s : String) : Option Int :=
  if Agent.hasSfx s "Z" then decToInt (chopLast s) else none

theorem hasSfx_append_self (s : String) : Agent.hasSfx (s ++ "Z") "Z" = true := by
  rw [Agent.hasSfx]
  show Agent.pfxCh (("Z" : String).data).reverse ((s ++ "Z").data).reverse = true
  rw [show ((s ++ "Z").data) = s.data ++ ['Z'] from rfl]
  rw [List.reverse_append]
  rfl

theorem chopLast_append (s : String) : chopLast (s ++ "Z") = s := by
  rw [chopLast, show ((s ++ "Z").data) = s.data ++ ['Z'] from rfl,
    List.dropLast_concat]

theorem parseDateISO_dateToISO (t : Int) : parseDateISO (dateToISO t) = some t := by
  rw [dateToISO, parseDateISO, if_pos (hasSfx_append_self (intToDec t)),
    chopLast_append, decToInt_intToDec]

/-- A space snapshot (`SpaceSnapshot`): sizes are bigints, dates are
epoch-millisecond values. -/
structure SpaceSnapshot where
  provider : String
  space : String
  size : Int
  recordedAt : Int
  insertedAt : Int
deriving DecidableEq

/-- The snapshot schema — space-snapshot.js lines 11-17: provider a did:web
DID, space a DID, size a non-negative bigint, both dates valid (every date
of the model is valid). -/
def schemaValid (x : SpaceSnapshot) : Bool :=
  isDidWeb x.provider && isDid x.space && decide (0 ≤ x.size)

/-- The marshalled store record. -/
structure StoreRecord where
  pk : String
  space : String
  provider : String
  size : String
  recordedAt : String
  insertedAt : String
deriving DecidableEq

/-- Codec failures. -/
inductive CodecErr
  | encodeFailure (msg : String)
  | decodeFailure (msg : String)
deriving DecidableEq

/-- `encode` — lines 23-40: composite partition key `{space}#{provider}`,
decimal size, ISO dates (the try/catch guards `toISOString`, which throws
only on invalid dates; dates of the model are valid, so the failure branch
is unreachable). -/
def encode (x : SpaceSnapshot) : Except CodecErr StoreRecord :=
  .ok { pk := x.space ++ "#" ++ x.provider
        space := x.space
        provider := x.provider
        size := intToDec x.size
        recordedAt := dateToISO x.recordedAt
        insertedAt := dateToISO x.insertedAt }

/-- `decode` — lines 51-67: validates the space and provider DIDs, parses
the bigint size and both dates; any validator or constructor throw is a
DecodeFailure. -/
def decode (r : StoreRecord) : Except CodecErr SpaceSnapshot :=
  if !isDid r.space then .error (.decodeFailure "space") else
  if !isDidWeb r.provider then .error (.decodeFailure "provider") else
  match decToInt r.size with
  | none => .error (.decodeFailure "size")
  | some size =>
    match parseDateISO r.recordedAt, parseDateISO r.insertedAt with
    | some ra, some ia =>
      .ok { provider := r.provider, space := r.space, size := size,
            recordedAt := ra, insertedAt := ia }
    | _, _ => .error (.decodeFailure "date")

/-- Claim C10: for every snapshot satisfying the schema, decoding the
encoding returns the original record — size preserved exactly, dates to
millisecond precision — and never an error. -/
theorem decode_encode_roundtrip (x : SpaceSnapshot) (h : schemaValid x = true) :
    ∃ r, encode x = Except.ok r ∧ decode r = Except.ok x := by
  have h' := h
  rw [schemaValid, Bool.and_eq_true, Bool.and_eq_true] at h'
  rcases h' with ⟨⟨hweb, hdid⟩, _⟩
  refine ⟨_, rfl, ?_⟩
  rw [decode]
  simp only [hdid, hweb, Bool.not_true, Bool.false_eq_true, if_false,
    decToInt_intToDec, parseDateISO_dateToISO]

/-- Concrete snapshot of the claim C10 witness. -/
def wSnap : SpaceSnapshot :=
  { provider := "did:web:web3.storage", space := "did:key:zspace",
    size := 1024, recordedAt := 1700000000000, insertedAt := 1700000001000 }

/-- Witness for claim C10 at a concrete snapshot. -/
theorem decode_encode_roundtrip_witness :
    ∃ r, encode wSnap = Except.ok r ∧ decode r = Except.ok wSnap :=
  decode_encode_roundtrip wSnap (by decide)

end UploadApi.Billing
